import Mathlib

/-!
Verification of the combination-search-and-scoring engine in `script.py` of
the repository "Algorithmic approach to optimizing individual nanoparticle
control for complex manipulation".

Shallow embedding conventions:
* numeric values (wavelengths, efficiencies, weights, scores) are rationals;
* a pandas `DataFrame` of one nanoparticle becomes a `List OpticalRecord`
  (rows in file order, columns `nm`, `Qext`, `Qsca`, `Qabs`);
* the Python `dict` catalog (insertion-ordered, distinct keys) becomes an
  association list `List (String × List OpticalRecord)`;
* `float('-inf')` becomes `Score.negInf`; a finite score is `Score.val q`;
* a Python exception becomes an `Except ScriptError` result:
  `ValueError` from the wavelength lookup is `ScriptError.wavelengthNotFound`,
  `KeyError` from `data[nanoparticle]` is `ScriptError.keyError`, and
  `IndexError` (from `nanoparticles[0]` on an empty catalog, or from an
  out-of-range `combination[i]`) is `ScriptError.indexError`.
-/

/-- One row of a nanoparticle's optical table: wavelength `nm` and the
extinction (`Qext`), scattering (`Qsca`) and absorption (`Qabs`)
efficiencies, as parsed by `load_data`. -/
structure OpticalRecord where
  nm : ℚ
  Qext : ℚ
  Qsca : ℚ
  Qabs : ℚ
deriving DecidableEq, Repr

/-- The in-memory catalog built by `load_data`: nanoparticle identifier
mapped to its ordered optical table. -/
abbrev Catalog := List (String × List OpticalRecord)

/-- Scoring weights, the Python dict `{'scattering': ..., 'absorption': ...}`. -/
structure WeightConfig where
  scattering : ℚ
  absorption : ℚ
deriving DecidableEq, Repr

/-- A candidate assignment: an ordered sequence of (nanoparticleId, wavelength)
pairs, one element of `itertools.combinations`. -/
abbrev Assignment := List (String × ℚ)

/-- The errors the script can raise. -/
inductive ScriptError where
  /-- `ValueError(f"Wavelength {wavelength} not found for {nanoparticle}")`. -/
  | wavelengthNotFound (wavelength : ℚ) (nanoparticle : String) : ScriptError
  /-- `KeyError` from `data[nanoparticle]` when the key is absent. -/
  | keyError (nanoparticle : String) : ScriptError
  /-- `IndexError` from an out-of-range sequence subscript. -/
  | indexError : ScriptError
deriving DecidableEq, Repr

/-- The running maximum value: `float('-inf')` or a finite rational score. -/
inductive Score where
  | negInf : Score
  | val : ℚ → Score
deriving DecidableEq, Repr

/-- The strict comparison `score > maxScore` of the Python update step,
with `maxScore` on the left: true when `maxScore` is `-inf`. -/
def Score.ltVal : Score → ℚ → Bool
  | .negInf, _ => true
  | .val m, s => decide (m < s)

/-- `calculate_absorption`: fetch `data[nanoparticle]` (first matching key),
select the first row whose wavelength equals `wavelength`, and return its
`Qabs`; raise `ValueError` when no row matches. -/
def calculate_absorption (data : Catalog) (nanoparticle : String) (wavelength : ℚ) :
    Except ScriptError ℚ :=
  match data.lookup nanoparticle with
  | none => .error (.keyError nanoparticle)
  | some df =>
    match df.find? (fun r => decide (r.nm = wavelength)) with
    | some row => .ok row.Qabs
    | none => .error (.wavelengthNotFound wavelength nanoparticle)

/-- `calculate_scattering`: same row selection as `calculate_absorption`,
returning the row's `Qsca`. -/
def calculate_scattering (data : Catalog) (nanoparticle : String) (wavelength : ℚ) :
    Except ScriptError ℚ :=
  match data.lookup nanoparticle with
  | none => .error (.keyError nanoparticle)
  | some df =>
    match df.find? (fun r => decide (r.nm = wavelength)) with
    | some row => .ok row.Qsca
    | none => .error (.wavelengthNotFound wavelength nanoparticle)

/-- The inner `for j in range(n)` loop of `calculate_S_score`: accumulate, over
the remaining indices `js`, the penalty of every other (`j ≠ i`) selected
nanoparticle evaluated at wavelength `wavelength`. -/
def penaltyAux (combination : Assignment) (data : Catalog) (weights : WeightConfig)
    (wavelength : ℚ) (i : ℕ) : List ℕ → ℚ → Except ScriptError ℚ
  | [], acc => .ok acc
  | j :: js, acc =>
    if i = j then penaltyAux combination data weights wavelength i js acc
    else
      match combination.get? j with
      | none => .error .indexError
      | some (other, _) =>
        match calculate_absorption data other wavelength with
        | .error e => .error e
        | .ok otherAbs =>
          match calculate_scattering data other wavelength with
          | .error e => .error e
          | .ok otherSca =>
            penaltyAux combination data weights wavelength i js
              (acc + (weights.scattering * otherSca + weights.absorption * otherAbs))

/-- The outer `for i in range(n)` loop of `calculate_S_score`: accumulate each
pair's own cross-section score minus its total cross-talk penalty. -/
def scoreAux (n : ℕ) (combination : Assignment) (data : Catalog)
    (weights : WeightConfig) : List ℕ → ℚ → Except ScriptError ℚ
  | [], acc => .ok acc
  | i :: is, acc =>
    match combination.get? i with
    | none => .error .indexError
    | some (nanoparticle, wavelength) =>
      match calculate_absorption data nanoparticle wavelength with
      | .error e => .error e
      | .ok absorptionCS =>
        match calculate_scattering data nanoparticle wavelength with
        | .error e => .error e
        | .ok scatteringCS =>
          match penaltyAux combination data weights wavelength i (List.range n) 0 with
          | .error e => .error e
          | .ok totalPenalty =>
            scoreAux n combination data weights is
              (acc + ((weights.scattering * scatteringCS
                + weights.absorption * absorptionCS) - totalPenalty))

/-- `calculate_S_score(n, combination, data, weights)`: total score starting
from `0`, summing over `i in range(n)` the own score of `combination[i]` minus
the penalties of every other selected nanoparticle at `combination[i]`'s
wavelength. -/
def calculate_S_score (n : ℕ) (combination : Assignment) (data : Catalog)
    (weights : WeightConfig) : Except ScriptError ℚ :=
  scoreAux n combination data weights (List.range n) 0

/-- The validity check of `find_best_combination`: walk the combination with a
set of already-used nanoparticle identifiers; reject as soon as an identifier
repeats. -/
def validCombination : Assignment → List String → Bool
  | [], _ => true
  | (np, _) :: rest, used =>
    if np ∈ used then false else validCombination rest (np :: used)

/-- `pandas.unique` on the wavelength column: the distinct values in order of
first appearance. -/
def uniqueAux : List ℚ → List ℚ → List ℚ
  | [], _ => []
  | x :: xs, seen =>
    if x ∈ seen then uniqueAux xs seen else x :: uniqueAux xs (seen ++ [x])

/-- Distinct wavelengths of a table column in first-seen order. -/
def uniqueFirstSeen (l : List ℚ) : List ℚ := uniqueAux l []

/-- `itertools.combinations(l, n)`: all length-`n` subsequences of `l`, in the
lexicographic order of positions that the Python generator produces. -/
def combinations : ℕ → List (String × ℚ) → List (List (String × ℚ))
  | 0, _ => [[]]
  | _ + 1, [] => []
  | n + 1, x :: xs => (combinations n xs).map (fun c => x :: c) ++ combinations (n + 1) xs

/-- The candidate-enumeration loop of `find_best_combination`, over the list of
combinations still to visit, carrying `(bestCombination, maxScore)`.  The last
component is a ghost accumulator recording, in order, every combination that
was actually passed to `calculate_S_score`; it has no effect on the other two
components. -/
def searchLoop (n : ℕ) (data : Catalog) (weights : WeightConfig) :
    List Assignment → Option Assignment → Score → List Assignment →
    Except ScriptError (Option Assignment × Score × List Assignment)
  | [], best, maxScore, scored => .ok (best, maxScore, scored)
  | c :: rest, best, maxScore, scored =>
    if validCombination c [] then
      match calculate_S_score n c data weights with
      | .error e => .error e
      | .ok score =>
        if maxScore.ltVal score then
          searchLoop n data weights rest (some c) (.val score) (scored ++ [c])
        else
          searchLoop n data weights rest best maxScore (scored ++ [c])
    else
      searchLoop n data weights rest best maxScore scored

/-- The flat candidate list `[(np, wl) for np in nanoparticles for wl in wavelengths]`. -/
def flatPairs (nanoparticles : List String) (wavelengths : List ℚ) : List (String × ℚ) :=
  nanoparticles.flatMap (fun np => wavelengths.map (fun wl => (np, wl)))

/-- The wavelength universe of `find_best_combination`: the distinct values of
the first catalog entry's wavelength column, in first-seen order
(`nanoparticleData[nanoparticles[0]].iloc[:, 0].unique()`). -/
def representativeWavelengths (df0 : List OpticalRecord) : List ℚ :=
  uniqueFirstSeen (df0.map OpticalRecord.nm)

/-- `find_best_combination(n, nanoparticleData, weights)`: on an empty catalog
`nanoparticles[0]` raises `IndexError`; otherwise enumerate
`combinations(flat pairs, n)` with the search loop, starting from
`(None, float('-inf'))`. -/
def find_best_combination (n : ℕ) (nanoparticleData : Catalog)
    (weights : WeightConfig) : Except ScriptError (Option Assignment × Score) :=
  match nanoparticleData with
  | [] => .error .indexError
  | (_, df0) :: _ =>
    let nanoparticles := nanoparticleData.map Prod.fst
    let wavelengths := representativeWavelengths df0
    (searchLoop n nanoparticleData weights
        (combinations n (flatPairs nanoparticles wavelengths)) none .negInf []).map
      (fun r => (r.1, r.2.1))

/-- The list of candidates `find_best_combination` actually scores, when the
run succeeds: the ghost component of the search loop. -/
def scoredCandidates (n : ℕ) (nanoparticleData : Catalog)
    (weights : WeightConfig) : Except ScriptError (List Assignment) :=
  match nanoparticleData with
  | [] => .error .indexError
  | (_, df0) :: _ =>
    let nanoparticles := nanoparticleData.map Prod.fst
    let wavelengths := representativeWavelengths df0
    (searchLoop n nanoparticleData weights
        (combinations n (flatPairs nanoparticles wavelengths)) none .negInf []).map
      (fun r => r.2.2)

/-- The flat candidate universe of one `find_best_combination` call: every
catalog key crossed with the representative wavelengths (empty on an empty
catalog, where the script raises before building it). -/
def candidateUniverse (data : Catalog) : List (String × ℚ) :=
  match data with
  | [] => []
  | (_, df0) :: _ => flatPairs (data.map Prod.fst) (representativeWavelengths df0)

/-- The full enumeration of size-`n` candidates of one
`find_best_combination` call, in visit order. -/
def allCandidates (n : ℕ) (data : Catalog) : List Assignment :=
  combinations n (candidateUniverse data)

/-- The row the lookup helpers resolve for `(nanoparticle, wavelength)`:
first matching key, then first row with that exact wavelength. -/
def targetRow (data : Catalog) (nanoparticle : String) (wavelength : ℚ) :
    Option OpticalRecord :=
  (data.lookup nanoparticle).bind (fun df => df.find? (fun r => decide (r.nm = wavelength)))

/-- The scattering efficiency the lookup resolves, `0` when no row matches. -/
def scatteringAt (data : Catalog) (nanoparticle : String) (wavelength : ℚ) : ℚ :=
  ((targetRow data nanoparticle wavelength).map OpticalRecord.Qsca).getD 0

/-- The absorption efficiency the lookup resolves, `0` when no row matches. -/
def absorptionAt (data : Catalog) (nanoparticle : String) (wavelength : ℚ) : ℚ :=
  ((targetRow data nanoparticle wavelength).map OpticalRecord.Qabs).getD 0

/-- The weighted response of one nanoparticle at one wavelength, the unit the
scoring formula adds and subtracts. -/
def response (data : Catalog) (weights : WeightConfig) (nanoparticle : String)
    (wavelength : ℚ) : ℚ :=
  weights.scattering * scatteringAt data nanoparticle wavelength
    + weights.absorption * absorptionAt data nanoparticle wavelength

/-- The `i`-th pair of an assignment, with a dummy default out of range. -/
def pairAt (c : Assignment) (i : ℕ) : String × ℚ :=
  c.getD i ("", 0)

/-- Scaling of a running maximum by a constant: `-inf` is fixed. -/
def Score.scale (k : ℚ) : Score → Score
  | .negInf => .negInf
  | .val q => .val (k * q)

/-- The value the `i`-th iteration of `calculate_S_score`'s outer loop adds
when every lookup succeeds: own response minus the responses of every other
selected nanoparticle at the `i`-th pair's wavelength. -/
def contributionAt (n : ℕ) (c : Assignment) (data : Catalog) (weights : WeightConfig)
    (i : ℕ) : ℚ :=
  response data weights (pairAt c i).1 (pairAt c i).2
    - ((List.range n).map
        (fun j => if i = j then 0
          else response data weights (pairAt c j).1 (pairAt c i).2)).sum

/-- Two optical rows that agree on wavelength, scattering and absorption but
may differ in `Qext`. -/
def recordAgrees (r1 r2 : OpticalRecord) : Bool :=
  r1.nm == r2.nm && r1.Qsca == r2.Qsca && r1.Qabs == r2.Qabs

/-- Two tables that agree row by row except possibly in `Qext`. -/
def tablesAgree : List OpticalRecord → List OpticalRecord → Bool
  | [], [] => true
  | r1 :: t1, r2 :: t2 => recordAgrees r1 r2 && tablesAgree t1 t2
  | _, _ => false

/-- Two catalogs with the same identifiers in the same order whose tables
agree except possibly in `Qext`. -/
def catalogAgrees : Catalog → Catalog → Bool
  | [], [] => true
  | (k1, t1) :: d1, (k2, t2) :: d2 => k1 == k2 && tablesAgree t1 t2 && catalogAgrees d1 d2
  | _, _ => false

/-! ### Concrete example data (used to instantiate the theorems) -/

/-- Scattering-only weights, as in the spec's symmetry example. -/
def wOne : WeightConfig := ⟨1, 0⟩

/-- Example row: wavelength 1, Qext 9, Qsca 5, Qabs 0. -/
def rowA : OpticalRecord := ⟨1, 9, 5, 0⟩

/-- Example row: wavelength 1, Qext 3, Qsca 1, Qabs 0. -/
def rowB : OpticalRecord := ⟨1, 3, 1, 0⟩

/-- A two-nanoparticle catalog sharing the single wavelength 1. -/
def catalogAB : Catalog := [("A", [rowA]), ("B", [rowB])]

/-- A one-nanoparticle catalog. -/
def catalogSolo : Catalog := [("A", [rowA])]

/-- A catalog whose second nanoparticle lacks the representative wavelength 1. -/
def catalogMissing : Catalog := [("A", [rowA]), ("B", [⟨2, 4, 5, 0⟩])]

/-- `catalogAB` with both extinction-efficiency values replaced. -/
def catalogQext : Catalog := [("A", [⟨1, 100, 5, 0⟩]), ("B", [⟨1, -7, 1, 0⟩])]

/-! ### Combinatorial structure of the enumeration -/

theorem mem_combinations {n : ℕ} {l c : List (String × ℚ)} :
    c ∈ combinations n l ↔ c.Sublist l ∧ c.length = n := by
  induction l generalizing c n with
  | nil =>
    cases n with
    | zero =>
      simp only [combinations, List.mem_singleton, List.sublist_nil]
      constructor
      · rintro rfl; simp
      · rintro ⟨rfl, _⟩; rfl
    | succ m =>
      constructor
      · intro h; exact absurd h (List.not_mem_nil c)
      · rintro ⟨hs, hl⟩
        rw [List.sublist_nil.mp hs] at hl
        cases hl
  | cons x xs ih =>
    cases n with
    | zero =>
      simp only [combinations, List.mem_singleton, List.length_eq_zero]
      constructor
      · rintro rfl; simp
      · rintro ⟨_, rfl⟩; rfl
    | succ m =>
      simp only [combinations, List.mem_append, List.mem_map]
      constructor
      · rintro (⟨d, hd, rfl⟩ | h)
        · obtain ⟨hs, hl⟩ := ih.mp hd
          exact ⟨List.Sublist.cons₂ x hs, by simp [hl]⟩
        · obtain ⟨hs, hl⟩ := ih.mp h
          exact ⟨List.Sublist.cons x hs, hl⟩
      · rintro ⟨hs, hl⟩
        cases hs with
        | cons _ h => exact Or.inr (ih.mpr ⟨h, hl⟩)
        | cons₂ _ h =>
          exact Or.inl ⟨_, ih.mpr ⟨h, by simpa using hl⟩, rfl⟩

theorem length_of_mem_combinations {n : ℕ} {l c : List (String × ℚ)}
    (h : c ∈ combinations n l) : c.length = n :=
  (mem_combinations.mp h).2

theorem sublist_of_mem_combinations {n : ℕ} {l c : List (String × ℚ)}
    (h : c ∈ combinations n l) : c.Sublist l :=
  (mem_combinations.mp h).1

/-! ### The validity filter -/

theorem validCombination_iff (c : Assignment) :
    ∀ used : List String,
      validCombination c used = true ↔
        ((c.map Prod.fst).Nodup ∧ ∀ p ∈ c, p.1 ∉ used) := by
  induction c with
  | nil => intro used; simp [validCombination]
  | cons p rest ih =>
    intro used
    obtain ⟨np, wl⟩ := p
    by_cases h : np ∈ used
    · simp only [validCombination, if_pos h]
      constructor
      · intro hfalse; cases hfalse
      · rintro ⟨-, hall⟩
        exact absurd h (hall (np, wl) (List.mem_cons_self _ _))
    · simp only [validCombination, if_neg h, ih, List.map_cons, List.nodup_cons,
        List.mem_cons, List.mem_map]
      constructor
      · rintro ⟨hnodup, hall⟩
        refine ⟨⟨?_, hnodup⟩, ?_⟩
        · rintro ⟨q, hq, hq1⟩
          exact (hall q hq) (Or.inl hq1)
        · rintro q (rfl | hq)
          · exact h
          · intro hmem
            exact (hall q hq) (Or.inr hmem)
      · rintro ⟨⟨hnotin, hnodup⟩, hall⟩
        refine ⟨hnodup, ?_⟩
        rintro q hq (hq1 | hq2)
        · exact hnotin ⟨q, hq, hq1⟩
        · exact (hall q (Or.inr hq)) hq2

theorem validCombination_nil_iff (c : Assignment) :
    validCombination c [] = true ↔ (c.map Prod.fst).Nodup := by
  rw [validCombination_iff]
  simp

/-! ### Lookup structure -/

theorem calculate_absorption_of_targetRow {data : Catalog} {np : String} {wl : ℚ}
    {r : OpticalRecord} (h : targetRow data np wl = some r) :
    calculate_absorption data np wl = .ok r.Qabs := by
  unfold targetRow at h
  unfold calculate_absorption
  cases hl : data.lookup np with
  | none => rw [hl] at h; cases h
  | some df =>
    rw [hl] at h
    simp only [Option.some_bind] at h
    simp only [h]

theorem calculate_scattering_of_targetRow {data : Catalog} {np : String} {wl : ℚ}
    {r : OpticalRecord} (h : targetRow data np wl = some r) :
    calculate_scattering data np wl = .ok r.Qsca := by
  unfold targetRow at h
  unfold calculate_scattering
  cases hl : data.lookup np with
  | none => rw [hl] at h; cases h
  | some df =>
    rw [hl] at h
    simp only [Option.some_bind] at h
    simp only [h]

theorem absorptionAt_of_targetRow {data : Catalog} {np : String} {wl : ℚ}
    {r : OpticalRecord} (h : targetRow data np wl = some r) :
    absorptionAt data np wl = r.Qabs := by
  unfold absorptionAt
  rw [h]
  rfl

theorem scatteringAt_of_targetRow {data : Catalog} {np : String} {wl : ℚ}
    {r : OpticalRecord} (h : targetRow data np wl = some r) :
    scatteringAt data np wl = r.Qsca := by
  unfold scatteringAt
  rw [h]
  rfl

theorem calculate_absorption_error_shape {data : Catalog} {np : String} {wl : ℚ}
    {e : ScriptError} (h : calculate_absorption data np wl = .error e) :
    e = .keyError np ∨ e = .wavelengthNotFound wl np := by
  unfold calculate_absorption at h
  cases hl : data.lookup np with
  | none => simp only [hl] at h; cases h; exact Or.inl rfl
  | some df =>
    simp only [hl] at h
    cases hf : df.find? (fun r => decide (r.nm = wl)) with
    | none => simp only [hf] at h; cases h; exact Or.inr rfl
    | some row => simp only [hf] at h; cases h

theorem calculate_scattering_error_shape {data : Catalog} {np : String} {wl : ℚ}
    {e : ScriptError} (h : calculate_scattering data np wl = .error e) :
    e = .keyError np ∨ e = .wavelengthNotFound wl np := by
  unfold calculate_scattering at h
  cases hl : data.lookup np with
  | none => simp only [hl] at h; cases h; exact Or.inl rfl
  | some df =>
    simp only [hl] at h
    cases hf : df.find? (fun r => decide (r.nm = wl)) with
    | none => simp only [hf] at h; cases h; exact Or.inr rfl
    | some row => simp only [hf] at h; cases h

theorem lookup_isSome_of_mem_keys {data : Catalog} {np : String}
    (h : np ∈ data.map Prod.fst) : (data.lookup np).isSome = true := by
  induction data with
  | nil => cases h
  | cons e rest ih =>
    obtain ⟨k, v⟩ := e
    simp only [List.map_cons, List.mem_cons] at h
    by_cases hk : np = k
    · subst hk; simp [List.lookup]
    · rcases h with h | h
      · exact absurd h hk
      · simpa [List.lookup, beq_false_of_ne hk] using ih h

theorem calculate_absorption_error_of_key {data : Catalog} {np : String} {wl : ℚ}
    {e : ScriptError} (hkey : np ∈ data.map Prod.fst)
    (h : calculate_absorption data np wl = .error e) :
    e = .wavelengthNotFound wl np := by
  rcases calculate_absorption_error_shape h with h1 | h1
  · exfalso
    unfold calculate_absorption at h
    cases hl : data.lookup np with
    | none =>
      have := lookup_isSome_of_mem_keys hkey
      rw [hl] at this; cases this
    | some df =>
      simp only [hl] at h
      cases hf : df.find? (fun r => decide (r.nm = wl)) with
      | none => simp only [hf] at h; cases h; cases h1
      | some row => simp only [hf] at h; cases h
  · exact h1

theorem calculate_scattering_error_of_key {data : Catalog} {np : String} {wl : ℚ}
    {e : ScriptError} (hkey : np ∈ data.map Prod.fst)
    (h : calculate_scattering data np wl = .error e) :
    e = .wavelengthNotFound wl np := by
  rcases calculate_scattering_error_shape h with h1 | h1
  · exfalso
    unfold calculate_scattering at h
    cases hl : data.lookup np with
    | none =>
      have := lookup_isSome_of_mem_keys hkey
      rw [hl] at this; cases this
    | some df =>
      simp only [hl] at h
      cases hf : df.find? (fun r => decide (r.nm = wl)) with
      | none => simp only [hf] at h; cases h; cases h1
      | some row => simp only [hf] at h; cases h
  · exact h1

/-! ### Sum bridging -/

theorem sum_map_list_range (f : ℕ → ℚ) :
    ∀ n : ℕ, ((List.range n).map f).sum = ∑ i in Finset.range n, f i := by
  intro n
  induction n with
  | zero => simp
  | succ m ih =>
    rw [List.range_succ, Finset.sum_range_succ]
    simp [ih]

/-! ### Scoring: success characterization -/

theorem get?_eq_pairAt {c : Assignment} {j : ℕ} (h : j < c.length) :
    c.get? j = some (pairAt c j) := by
  rw [List.get?_eq_get h, pairAt, List.getD_eq_getElem c _ h]
  rfl

theorem penaltyAux_ok (c : Assignment) (data : Catalog) (w : WeightConfig)
    (wl : ℚ) (i : ℕ) :
    ∀ (js : List ℕ) (acc : ℚ),
      (∀ j ∈ js, i ≠ j →
        j < c.length ∧ (targetRow data (pairAt c j).1 wl).isSome = true) →
      penaltyAux c data w wl i js acc =
        .ok (acc + (js.map
          (fun j => if i = j then 0 else response data w (pairAt c j).1 wl)).sum) := by
  intro js
  induction js with
  | nil => intro acc _; simp [penaltyAux]
  | cons j js ih =>
    intro acc h
    rcases eq_or_ne i j with hij | hij
    · simp only [penaltyAux, if_pos hij]
      rw [ih acc (fun x hx hne => h x (List.mem_cons_of_mem _ hx) hne)]
      simp [hij]
    · obtain ⟨hlt, hsome⟩ := h j (List.mem_cons_self _ _) hij
      obtain ⟨r, hr⟩ := Option.isSome_iff_exists.mp hsome
      have hj : c.get? j = some (pairAt c j) := get?_eq_pairAt hlt
      rcases hpair : pairAt c j with ⟨np2, wl2⟩
      rw [hpair] at hj hr
      simp only [penaltyAux, if_neg hij, hj,
        calculate_absorption_of_targetRow hr, calculate_scattering_of_targetRow hr]
      rw [ih _ (fun x hx hne => h x (List.mem_cons_of_mem _ hx) hne)]
      simp only [List.map_cons, List.sum_cons, if_neg hij, hpair]
      rw [response, scatteringAt_of_targetRow hr, absorptionAt_of_targetRow hr]
      congr 1
      ring

theorem scoreAux_ok (n : ℕ) (c : Assignment) (data : Catalog) (w : WeightConfig) :
    ∀ (is : List ℕ) (acc : ℚ),
      (∀ i ∈ is, i < c.length ∧
        (targetRow data (pairAt c i).1 (pairAt c i).2).isSome = true ∧
        (∀ j, j < n → i ≠ j →
          j < c.length ∧ (targetRow data (pairAt c j).1 (pairAt c i).2).isSome = true)) →
      scoreAux n c data w is acc =
        .ok (acc + (is.map (contributionAt n c data w)).sum) := by
  intro is
  induction is with
  | nil => intro acc _; simp [scoreAux]
  | cons i is ih =>
    intro acc h
    obtain ⟨hlt, hown, hpen⟩ := h i (List.mem_cons_self _ _)
    obtain ⟨r, hr⟩ := Option.isSome_iff_exists.mp hown
    have hi : c.get? i = some (pairAt c i) := get?_eq_pairAt hlt
    rcases hpair : pairAt c i with ⟨np1, wl1⟩
    rw [hpair] at hi hr
    have hpen' : ∀ j ∈ List.range n, i ≠ j →
        j < c.length ∧ (targetRow data (pairAt c j).1 wl1).isSome = true := by
      intro j hjr hne
      have := hpen j (List.mem_range.mp hjr) hne
      rw [hpair] at this
      exact this
    simp only [scoreAux, hi,
      calculate_absorption_of_targetRow hr, calculate_scattering_of_targetRow hr,
      penaltyAux_ok c data w wl1 i (List.range n) 0 hpen']
    rw [ih _ (fun x hx => h x (List.mem_cons_of_mem _ hx))]
    simp only [List.map_cons, List.sum_cons]
    congr 1
    rw [contributionAt, hpair]
    simp only [response, scatteringAt_of_targetRow hr, absorptionAt_of_targetRow hr]
    ring

theorem calculate_S_score_ok (n : ℕ) (c : Assignment) (data : Catalog)
    (w : WeightConfig) (hlen : n ≤ c.length)
    (hok : ∀ i < n, ∀ j < n,
      (targetRow data (pairAt c j).1 (pairAt c i).2).isSome = true) :
    calculate_S_score n c data w =
      .ok (((List.range n).map (contributionAt n c data w)).sum) := by
  rw [calculate_S_score, scoreAux_ok n c data w (List.range n) 0]
  · rw [zero_add]
  · intro i hi
    have hi' : i < n := List.mem_range.mp hi
    refine ⟨lt_of_lt_of_le hi' hlen, hok i hi' i hi', ?_⟩
    intro j hj _
    exact ⟨lt_of_lt_of_le hj hlen, hok i hi' j hj⟩

theorem sum_ite_ne (n i : ℕ) (f : ℕ → ℚ) :
    ∑ j in Finset.range n, (if i = j then 0 else f j)
      = ∑ j in (Finset.range n).filter (fun j => j ≠ i), f j := by
  rw [Finset.sum_filter]
  apply Finset.sum_congr rfl
  intro j _
  rcases eq_or_ne i j with h | h
  · simp [h]
  · simp [h, Ne.symm h]

theorem contributionAt_eq (n : ℕ) (c : Assignment) (data : Catalog)
    (w : WeightConfig) (i : ℕ) :
    contributionAt n c data w i =
      response data w (pairAt c i).1 (pairAt c i).2
        - ∑ j in (Finset.range n).filter (fun j => j ≠ i),
            response data w (pairAt c j).1 (pairAt c i).2 := by
  rw [contributionAt, sum_map_list_range, sum_ite_ne]

/-! ### Scoring: error shape -/

theorem penaltyAux_error (c : Assignment) (data : Catalog) (w : WeightConfig)
    (wl : ℚ) (i : ℕ) :
    ∀ (js : List ℕ) (acc : ℚ) (e : ScriptError),
      (∀ j ∈ js, j < c.length) →
      (∀ p ∈ c, p.1 ∈ data.map Prod.fst) →
      penaltyAux c data w wl i js acc = .error e →
      ∃ wl' np', e = .wavelengthNotFound wl' np' := by
  intro js
  induction js with
  | nil => intro acc e _ _ h; simp [penaltyAux] at h
  | cons j js ih =>
    intro acc e hlen hkeys h
    by_cases hij : i = j
    · rw [penaltyAux, if_pos hij] at h
      exact ih _ _ (fun x hx => hlen x (List.mem_cons_of_mem _ hx)) hkeys h
    · rw [penaltyAux, if_neg hij] at h
      have hj : c.get? j = some (pairAt c j) :=
        get?_eq_pairAt (hlen j (List.mem_cons_self _ _))
      have hmem : pairAt c j ∈ c := List.get?_mem hj
      rcases hpair : pairAt c j with ⟨np2, wl2⟩
      rw [hpair] at hj hmem
      simp only [hj] at h
      cases habs : calculate_absorption data np2 wl with
      | error e1 =>
        simp only [habs] at h
        cases h
        have hk : np2 ∈ data.map Prod.fst := hkeys _ hmem
        exact ⟨wl, np2, calculate_absorption_error_of_key hk habs⟩
      | ok qa =>
        simp only [habs] at h
        cases hsca : calculate_scattering data np2 wl with
        | error e1 =>
          simp only [hsca] at h
          cases h
          have hk : np2 ∈ data.map Prod.fst := hkeys _ hmem
          exact ⟨wl, np2, calculate_scattering_error_of_key hk hsca⟩
        | ok qs =>
          simp only [hsca] at h
          exact ih _ _ (fun x hx => hlen x (List.mem_cons_of_mem _ hx)) hkeys h

theorem scoreAux_error (n : ℕ) (c : Assignment) (data : Catalog) (w : WeightConfig)
    (hn : n ≤ c.length) :
    ∀ (is : List ℕ) (acc : ℚ) (e : ScriptError),
      (∀ i ∈ is, i < c.length) →
      (∀ p ∈ c, p.1 ∈ data.map Prod.fst) →
      scoreAux n c data w is acc = .error e →
      ∃ wl' np', e = .wavelengthNotFound wl' np' := by
  intro is
  induction is with
  | nil => intro acc e _ _ h; simp [scoreAux] at h
  | cons i is ih =>
    intro acc e hlen hkeys h
    rw [scoreAux] at h
    have hi : c.get? i = some (pairAt c i) :=
      get?_eq_pairAt (hlen i (List.mem_cons_self _ _))
    have hmem : pairAt c i ∈ c := List.get?_mem hi
    rcases hpair : pairAt c i with ⟨np1, wl1⟩
    rw [hpair] at hi hmem
    simp only [hi] at h
    cases habs : calculate_absorption data np1 wl1 with
    | error e1 =>
      simp only [habs] at h
      cases h
      exact ⟨wl1, np1, calculate_absorption_error_of_key (hkeys _ hmem) habs⟩
    | ok qa =>
      simp only [habs] at h
      cases hsca : calculate_scattering data np1 wl1 with
      | error e1 =>
        simp only [hsca] at h
        cases h
        exact ⟨wl1, np1, calculate_scattering_error_of_key (hkeys _ hmem) hsca⟩
      | ok qs =>
        simp only [hsca] at h
        cases hpen : penaltyAux c data w wl1 i (List.range n) 0 with
        | error e1 =>
          simp only [hpen] at h
          cases h
          exact penaltyAux_error c data w wl1 i (List.range n) 0 _
            (fun j hj => lt_of_lt_of_le (List.mem_range.mp hj) hn) hkeys hpen
        | ok qp =>
          simp only [hpen] at h
          exact ih _ _ (fun x hx => hlen x (List.mem_cons_of_mem _ hx)) hkeys h

theorem calculate_S_score_error (n : ℕ) (c : Assignment) (data : Catalog)
    (w : WeightConfig) (e : ScriptError) (hn : n ≤ c.length)
    (hkeys : ∀ p ∈ c, p.1 ∈ data.map Prod.fst)
    (h : calculate_S_score n c data w = .error e) :
    ∃ wl' np', e = .wavelengthNotFound wl' np' :=
  scoreAux_error n c data w hn (List.range n) 0 e
    (fun i hi => lt_of_lt_of_le (List.mem_range.mp hi) hn) hkeys h

/-! ### Score order helpers -/

theorem Score.ltVal_negInf (q : ℚ) : Score.negInf.ltVal q = true := rfl

theorem Score.ltVal_val_iff {m q : ℚ} : (Score.val m).ltVal q = true ↔ m < q := by
  simp [Score.ltVal]

theorem Score.ltVal_false_iff {s : Score} {q : ℚ} :
    s.ltVal q = false ↔ ∃ m, s = .val m ∧ q ≤ m := by
  cases s with
  | negInf => simp [Score.ltVal]
  | val m => simp [Score.ltVal]

theorem Score.ltVal_trans_lt {s : Score} {q v : ℚ} (h1 : s.ltVal q = true)
    (h2 : q < v) : s.ltVal v = true := by
  cases s with
  | negInf => rfl
  | val m =>
    rw [Score.ltVal_val_iff] at h1 ⊢
    exact lt_trans h1 h2

/-! ### The search loop -/

theorem searchLoop_cons_invalid (n : ℕ) (data : Catalog) (w : WeightConfig)
    (c : Assignment) (cs : List Assignment) (best : Option Assignment)
    (maxS : Score) (scored : List Assignment)
    (h : validCombination c [] = false) :
    searchLoop n data w (c :: cs) best maxS scored =
      searchLoop n data w cs best maxS scored := by
  rw [searchLoop, h]
  rfl

theorem searchLoop_cons_valid_ok (n : ℕ) (data : Catalog) (w : WeightConfig)
    (c : Assignment) (cs : List Assignment) (best : Option Assignment)
    (maxS : Score) (scored : List Assignment) (q : ℚ)
    (h : validCombination c [] = true)
    (hq : calculate_S_score n c data w = .ok q) :
    searchLoop n data w (c :: cs) best maxS scored =
      (if maxS.ltVal q then searchLoop n data w cs (some c) (.val q) (scored ++ [c])
       else searchLoop n data w cs best maxS (scored ++ [c])) := by
  rw [searchLoop, h, hq]
  rfl

theorem searchLoop_cons_valid_error (n : ℕ) (data : Catalog) (w : WeightConfig)
    (c : Assignment) (cs : List Assignment) (best : Option Assignment)
    (maxS : Score) (scored : List Assignment) (e : ScriptError)
    (h : validCombination c [] = true)
    (he : calculate_S_score n c data w = .error e) :
    searchLoop n data w (c :: cs) best maxS scored = .error e := by
  rw [searchLoop, h, he]
  rfl

theorem searchLoop_no_valid (n : ℕ) (data : Catalog) (w : WeightConfig) :
    ∀ (cs : List Assignment) (best : Option Assignment) (maxS : Score)
      (scored : List Assignment),
      (∀ c ∈ cs, validCombination c [] = false) →
      searchLoop n data w cs best maxS scored = .ok (best, maxS, scored) := by
  intro cs
  induction cs with
  | nil => intro best maxS scored _; rfl
  | cons c cs ih =>
    intro best maxS scored h
    rw [searchLoop_cons_invalid n data w c cs best maxS scored
      (h c (List.mem_cons_self _ _))]
    exact ih best maxS scored (fun x hx => h x (List.mem_cons_of_mem _ hx))

theorem searchLoop_ok_scored (n : ℕ) (data : Catalog) (w : WeightConfig) :
    ∀ (cs : List Assignment) (best : Option Assignment) (maxS : Score)
      (scored : List Assignment) (b' : Option Assignment) (m' : Score)
      (s' : List Assignment),
      searchLoop n data w cs best maxS scored = .ok (b', m', s') →
      s' = scored ++ cs.filter (fun c => validCombination c []) := by
  intro cs
  induction cs with
  | nil =>
    intro best maxS scored b' m' s' h
    cases h
    simp
  | cons c cs ih =>
    intro best maxS scored b' m' s' h
    cases hv : validCombination c [] with
    | false =>
      rw [searchLoop_cons_invalid n data w c cs best maxS scored hv] at h
      rw [ih _ _ _ _ _ _ h, List.filter_cons_of_neg (by simp [hv])]
    | true =>
      cases hsc : calculate_S_score n c data w with
      | error e =>
        rw [searchLoop_cons_valid_error n data w c cs best maxS scored e hv hsc] at h
        cases h
      | ok q =>
        rw [searchLoop_cons_valid_ok n data w c cs best maxS scored q hv hsc] at h
        rw [List.filter_cons_of_pos (by simp [hv])]
        cases hup : maxS.ltVal q with
        | true =>
          rw [hup, if_pos rfl] at h
          rw [ih _ _ _ _ _ _ h]
          simp
        | false =>
          rw [hup] at h
          simp only [Bool.false_eq_true, if_false] at h
          rw [ih _ _ _ _ _ _ h]
          simp

theorem searchLoop_ok_all_scored (n : ℕ) (data : Catalog) (w : WeightConfig) :
    ∀ (cs : List Assignment) (best : Option Assignment) (maxS : Score)
      (scored : List Assignment) (r : Option Assignment × Score × List Assignment),
      searchLoop n data w cs best maxS scored = .ok r →
      ∀ c ∈ cs, validCombination c [] = true →
        ∃ q, calculate_S_score n c data w = .ok q := by
  intro cs
  induction cs with
  | nil => intro best maxS scored r _ c hc; cases hc
  | cons c cs ih =>
    intro best maxS scored r h x hx hxv
    rcases List.mem_cons.mp hx with rfl | hx
    · cases hsc : calculate_S_score n x data w with
      | error e =>
        rw [searchLoop_cons_valid_error n data w x cs best maxS scored e hxv hsc] at h
        cases h
      | ok q => exact ⟨q, rfl⟩
    · cases hv : validCombination c [] with
      | false =>
        rw [searchLoop_cons_invalid n data w c cs best maxS scored hv] at h
        exact ih _ _ _ _ h x hx hxv
      | true =>
        cases hsc : calculate_S_score n c data w with
        | error e =>
          rw [searchLoop_cons_valid_error n data w c cs best maxS scored e hv hsc] at h
          cases h
        | ok q =>
          rw [searchLoop_cons_valid_ok n data w c cs best maxS scored q hv hsc] at h
          cases hup : maxS.ltVal q with
          | true =>
            rw [hup, if_pos rfl] at h
            exact ih _ _ _ _ h x hx hxv
          | false =>
            rw [hup] at h
            simp only [Bool.false_eq_true, if_false] at h
            exact ih _ _ _ _ h x hx hxv

theorem searchLoop_error_of_bad (n : ℕ) (data : Catalog) (w : WeightConfig) :
    ∀ (cs : List Assignment) (best : Option Assignment) (maxS : Score)
      (scored : List Assignment) (c₀ : Assignment) (e₀ : ScriptError),
      c₀ ∈ cs → validCombination c₀ [] = true →
      calculate_S_score n c₀ data w = .error e₀ →
      ∃ e, searchLoop n data w cs best maxS scored = .error e ∧
        ∃ c ∈ cs, validCombination c [] = true ∧
          calculate_S_score n c data w = .error e := by
  intro cs
  induction cs with
  | nil => intro best maxS scored c₀ e₀ hc; cases hc
  | cons c cs ih =>
    intro best maxS scored c₀ e₀ hc₀ hv₀ he₀
    cases hv : validCombination c [] with
    | false =>
      rw [searchLoop_cons_invalid n data w c cs best maxS scored hv]
      have hc₀' : c₀ ∈ cs := by
        rcases List.mem_cons.mp hc₀ with rfl | hx
        · rw [hv₀] at hv; cases hv
        · exact hx
      obtain ⟨e, he, c', hc', hv', hsc'⟩ := ih best maxS scored c₀ e₀ hc₀' hv₀ he₀
      exact ⟨e, he, c', List.mem_cons_of_mem _ hc', hv', hsc'⟩
    | true =>
      cases hsc : calculate_S_score n c data w with
      | error e =>
        rw [searchLoop_cons_valid_error n data w c cs best maxS scored e hv hsc]
        exact ⟨e, rfl, c, List.mem_cons_self _ _, hv, hsc⟩
      | ok q =>
        have hc₀' : c₀ ∈ cs := by
          rcases List.mem_cons.mp hc₀ with rfl | hx
          · rw [he₀] at hsc; cases hsc
          · exact hx
        rw [searchLoop_cons_valid_ok n data w c cs best maxS scored q hv hsc]
        cases hup : maxS.ltVal q with
        | true =>
          rw [if_pos rfl]
          obtain ⟨e, he, c', hc', hv', hsc'⟩ :=
            ih (some c) (.val q) (scored ++ [c]) c₀ e₀ hc₀' hv₀ he₀
          exact ⟨e, he, c', List.mem_cons_of_mem _ hc', hv', hsc'⟩
        | false =>
          simp only [Bool.false_eq_true, if_false]
          obtain ⟨e, he, c', hc', hv', hsc'⟩ :=
            ih best maxS (scored ++ [c]) c₀ e₀ hc₀' hv₀ he₀
          exact ⟨e, he, c', List.mem_cons_of_mem _ hc', hv', hsc'⟩

theorem searchLoop_max (n : ℕ) (data : Catalog) (w : WeightConfig)
    (cs0 : List Assignment) :
    ∀ (cs : List Assignment) (best : Option Assignment) (maxS : Score)
      (scored : List Assignment),
      cs ⊆ cs0 →
      (∀ c ∈ cs, validCombination c [] = true →
        ∃ q, calculate_S_score n c data w = .ok q) →
      ((best = none ∧ maxS = .negInf) ∨
        (∃ bb qb, best = some bb ∧ maxS = .val qb ∧ bb ∈ cs0 ∧
          validCombination bb [] = true ∧
          calculate_S_score n bb data w = .ok qb)) →
      ∃ b' m' s', searchLoop n data w cs best maxS scored = .ok (b', m', s') ∧
        ((b' = none ∧ m' = .negInf) ∨
          (∃ bb qb, b' = some bb ∧ m' = .val qb ∧ bb ∈ cs0 ∧
            validCombination bb [] = true ∧
            calculate_S_score n bb data w = .ok qb)) ∧
        (∀ c ∈ cs, validCombination c [] = true →
          ∀ q, calculate_S_score n c data w = .ok q → m'.ltVal q = false) ∧
        (∀ q : ℚ, maxS.ltVal q = false → m'.ltVal q = false) := by
  intro cs
  induction cs with
  | nil =>
    intro best maxS scored _ _ hinv
    exact ⟨best, maxS, scored, rfl, hinv, fun c hc => absurd hc (List.not_mem_nil c),
      fun q h => h⟩
  | cons c cs ih =>
    intro best maxS scored hsub hok hinv
    cases hv : validCombination c [] with
    | false =>
      rw [searchLoop_cons_invalid n data w c cs best maxS scored hv]
      obtain ⟨b', m', s', heq, hinv', hbnd, hmono⟩ :=
        ih best maxS scored (fun x hx => hsub (List.mem_cons_of_mem _ hx))
          (fun x hx => hok x (List.mem_cons_of_mem _ hx)) hinv
      refine ⟨b', m', s', heq, hinv', ?_, hmono⟩
      intro x hx hxv q hq
      rcases List.mem_cons.mp hx with rfl | hx
      · rw [hxv] at hv; cases hv
      · exact hbnd x hx hxv q hq
    | true =>
      obtain ⟨q, hq⟩ := hok c (List.mem_cons_self _ _) hv
      rw [searchLoop_cons_valid_ok n data w c cs best maxS scored q hv hq]
      cases hup : maxS.ltVal q with
      | true =>
        rw [if_pos rfl]
        obtain ⟨b', m', s', heq, hinv', hbnd, hmono⟩ :=
          ih (some c) (.val q) (scored ++ [c])
            (fun x hx => hsub (List.mem_cons_of_mem _ hx))
            (fun x hx => hok x (List.mem_cons_of_mem _ hx))
            (Or.inr ⟨c, q, rfl, rfl, hsub (List.mem_cons_self _ _), hv, hq⟩)
        refine ⟨b', m', s', heq, hinv', ?_, ?_⟩
        · intro x hx hxv q' hq'
          rcases List.mem_cons.mp hx with rfl | hx
          · rw [hq] at hq'
            cases hq'
            refine hmono q ?_
            rw [Score.ltVal_false_iff]
            exact ⟨q, rfl, le_refl q⟩
          · exact hbnd x hx hxv q' hq'
        · intro q' hq'
          rcases Score.ltVal_false_iff.mp hq' with ⟨m0, hm0, hle⟩
          refine hmono q' ?_
          rw [Score.ltVal_false_iff]
          refine ⟨q, rfl, ?_⟩
          rw [hm0] at hup
          rw [Score.ltVal_val_iff] at hup
          exact le_of_lt (lt_of_le_of_lt hle hup)
      | false =>
        simp only [Bool.false_eq_true, if_false]
        obtain ⟨b', m', s', heq, hinv', hbnd, hmono⟩ :=
          ih best maxS (scored ++ [c])
            (fun x hx => hsub (List.mem_cons_of_mem _ hx))
            (fun x hx => hok x (List.mem_cons_of_mem _ hx)) hinv
        refine ⟨b', m', s', heq, hinv', ?_, hmono⟩
        intro x hx hxv q' hq'
        rcases List.mem_cons.mp hx with rfl | hx
        · rw [hq] at hq'
          cases hq'
          exact hmono q hup
        · exact hbnd x hx hxv q' hq'

theorem searchLoop_first (n : ℕ) (data : Catalog) (w : WeightConfig)
    (b : Assignment) (v : ℚ) :
    ∀ (cs : List Assignment) (best : Option Assignment) (maxS : Score)
      (scored s' : List Assignment),
      searchLoop n data w cs best maxS scored = .ok (some b, .val v, s') →
      (best = some b ∧ maxS = .val v) ∨
      (∃ l1 l2, cs = l1 ++ b :: l2 ∧ validCombination b [] = true ∧
        calculate_S_score n b data w = .ok v ∧ maxS.ltVal v = true ∧
        ∀ c ∈ l1, validCombination c [] = true →
          ∀ q, calculate_S_score n c data w = .ok q → q < v) := by
  intro cs
  induction cs with
  | nil =>
    intro best maxS scored s' h
    cases h
    exact Or.inl ⟨rfl, rfl⟩
  | cons c cs ih =>
    intro best maxS scored s' h
    cases hv : validCombination c [] with
    | false =>
      rw [searchLoop_cons_invalid n data w c cs best maxS scored hv] at h
      rcases ih _ _ _ _ h with hl | ⟨l1, l2, heq, hvb, hsb, hlt, hbound⟩
      · exact Or.inl hl
      · refine Or.inr ⟨c :: l1, l2, by rw [heq, List.cons_append], hvb, hsb, hlt, ?_⟩
        intro x hx hxv q hq
        rcases List.mem_cons.mp hx with rfl | hx
        · rw [hxv] at hv; cases hv
        · exact hbound x hx hxv q hq
    | true =>
      cases hsc : calculate_S_score n c data w with
      | error e =>
        rw [searchLoop_cons_valid_error n data w c cs best maxS scored e hv hsc] at h
        cases h
      | ok q =>
        rw [searchLoop_cons_valid_ok n data w c cs best maxS scored q hv hsc] at h
        cases hup : maxS.ltVal q with
        | true =>
          rw [hup, if_pos rfl] at h
          rcases ih _ _ _ _ h with ⟨hbeq, hmeq⟩ | ⟨l1, l2, heq, hvb, hsb, hlt, hbound⟩
          · cases hbeq
            cases hmeq
            exact Or.inr ⟨[], cs, rfl, hv, hsc, hup, fun x hx => absurd hx (List.not_mem_nil x)⟩
          · have hqv : q < v := Score.ltVal_val_iff.mp hlt
            refine Or.inr ⟨c :: l1, l2, by rw [heq, List.cons_append], hvb, hsb,
              Score.ltVal_trans_lt hup hqv, ?_⟩
            intro x hx hxv q' hq'
            rcases List.mem_cons.mp hx with rfl | hx
            · rw [hsc] at hq'
              cases hq'
              exact hqv
            · exact hbound x hx hxv q' hq'
        | false =>
          rw [hup] at h
          simp only [Bool.false_eq_true, if_false] at h
          rcases ih _ _ _ _ h with hl | ⟨l1, l2, heq, hvb, hsb, hlt, hbound⟩
          · exact Or.inl hl
          · rcases Score.ltVal_false_iff.mp hup with ⟨m0, hm0, hle⟩
            have hm0v : m0 < v := by
              rw [hm0, Score.ltVal_val_iff] at hlt
              exact hlt
            refine Or.inr ⟨c :: l1, l2, by rw [heq, List.cons_append], hvb, hsb, hlt, ?_⟩
            intro x hx hxv q' hq'
            rcases List.mem_cons.mp hx with rfl | hx
            · rw [hsc] at hq'
              cases hq'
              exact lt_of_le_of_lt hle hm0v
            · exact hbound x hx hxv q' hq'

/-! ### Decomposing the entry point -/

theorem find_best_combination_cons (n : ℕ) (e : String × List OpticalRecord)
    (rest : Catalog) (w : WeightConfig) :
    find_best_combination n (e :: rest) w =
      (searchLoop n (e :: rest) w (allCandidates n (e :: rest)) none .negInf []).map
        (fun r => (r.1, r.2.1)) := by
  rcases e with ⟨k0, df0⟩
  rfl

theorem scoredCandidates_cons (n : ℕ) (e : String × List OpticalRecord)
    (rest : Catalog) (w : WeightConfig) :
    scoredCandidates n (e :: rest) w =
      (searchLoop n (e :: rest) w (allCandidates n (e :: rest)) none .negInf []).map
        (fun r => r.2.2) := by
  rcases e with ⟨k0, df0⟩
  rfl

theorem fst_mem_of_mem_flatPairs {nps : List String} {wls : List ℚ}
    {p : String × ℚ} (h : p ∈ flatPairs nps wls) : p.1 ∈ nps := by
  rw [flatPairs] at h
  obtain ⟨np, hnp, hp⟩ := List.mem_flatMap.mp h
  obtain ⟨wl, _, hw⟩ := List.mem_map.mp hp
  rw [← hw]
  exact hnp

theorem fst_mem_keys_of_mem_candidateUniverse {data : Catalog} {p : String × ℚ}
    (h : p ∈ candidateUniverse data) : p.1 ∈ data.map Prod.fst := by
  cases data with
  | nil => cases h
  | cons e rest =>
    rcases e with ⟨k0, df0⟩
    exact fst_mem_of_mem_flatPairs h

theorem keys_of_mem_allCandidates {n : ℕ} {data : Catalog} {c : Assignment}
    (h : c ∈ allCandidates n data) : ∀ p ∈ c, p.1 ∈ data.map Prod.fst := by
  intro p hp
  exact fst_mem_keys_of_mem_candidateUniverse
    ((sublist_of_mem_combinations h).subset hp)

theorem no_valid_candidate_of_large_n {n : ℕ} {data : Catalog}
    (h : (data.map Prod.fst).dedup.length < n) :
    ∀ c ∈ allCandidates n data, validCombination c [] = false := by
  intro c hc
  cases hv : validCombination c [] with
  | false => rfl
  | true =>
    exfalso
    have hnodup : (c.map Prod.fst).Nodup := (validCombination_nil_iff c).mp hv
    have hlen : c.length = n := length_of_mem_combinations hc
    have hsubset : (c.map Prod.fst).toFinset ⊆ (data.map Prod.fst).toFinset := by
      intro x hx
      rw [List.mem_toFinset] at hx ⊢
      obtain ⟨p, hp, hpx⟩ := List.mem_map.mp hx
      rw [← hpx]
      exact keys_of_mem_allCandidates hc p hp
    have hcard1 : (c.map Prod.fst).toFinset.card = n := by
      rw [List.toFinset_card_of_nodup hnodup, List.length_map, hlen]
    have hcard2 : (data.map Prod.fst).toFinset.card = (data.map Prod.fst).dedup.length :=
      List.card_toFinset _
    have := Finset.card_le_card hsubset
    rw [hcard1, hcard2] at this
    exact absurd (lt_of_lt_of_le h this) (lt_irrefl _)

/-! ### Weight scaling -/

theorem penaltyAux_scale (c : Assignment) (data : Catalog) (w : WeightConfig)
    (k : ℚ) (wl : ℚ) (i : ℕ) :
    ∀ (js : List ℕ) (acc : ℚ),
      penaltyAux c data ⟨k * w.scattering, k * w.absorption⟩ wl i js (k * acc) =
        (penaltyAux c data w wl i js acc).map (fun q => k * q) := by
  intro js
  induction js with
  | nil => intro acc; rfl
  | cons j js ih =>
    intro acc
    rw [penaltyAux, penaltyAux]
    by_cases hij : i = j
    · rw [if_pos hij, if_pos hij]
      exact ih acc
    · rw [if_neg hij, if_neg hij]
      cases hj : c.get? j with
      | none => simp only [hj]; rfl
      | some p =>
        rcases p with ⟨np2, wl2⟩
        simp only [hj]
        cases habs : calculate_absorption data np2 wl with
        | error e => simp only [habs]; rfl
        | ok qa =>
          simp only [habs]
          cases hsca : calculate_scattering data np2 wl with
          | error e => simp only [hsca]; rfl
          | ok qs =>
            simp only [hsca]
            have harg : k * acc + (k * w.scattering * qs + k * w.absorption * qa)
                = k * (acc + (w.scattering * qs + w.absorption * qa)) := by ring
            rw [harg]
            exact ih _

theorem scoreAux_scale (n : ℕ) (c : Assignment) (data : Catalog) (w : WeightConfig)
    (k : ℚ) :
    ∀ (is : List ℕ) (acc : ℚ),
      scoreAux n c data ⟨k * w.scattering, k * w.absorption⟩ is (k * acc) =
        (scoreAux n c data w is acc).map (fun q => k * q) := by
  intro is
  induction is with
  | nil => intro acc; rfl
  | cons i is ih =>
    intro acc
    rw [scoreAux, scoreAux]
    cases hi : c.get? i with
    | none => simp only [hi]; rfl
    | some p =>
      rcases p with ⟨np1, wl1⟩
      simp only [hi]
      cases habs : calculate_absorption data np1 wl1 with
      | error e => simp only [habs]; rfl
      | ok qa =>
        simp only [habs]
        cases hsca : calculate_scattering data np1 wl1 with
        | error e => simp only [hsca]; rfl
        | ok qs =>
          simp only [hsca]
          have hps := penaltyAux_scale c data w k wl1 i (List.range n) 0
          rw [show k * (0 : ℚ) = 0 from by ring] at hps
          cases hpen : penaltyAux c data w wl1 i (List.range n) 0 with
          | error e =>
            rw [hpen] at hps
            simp only [hpen, hps]
            rfl
          | ok qp =>
            rw [hpen] at hps
            simp only [hpen, hps, Except.map]
            have harg : k * acc + (k * w.scattering * qs + k * w.absorption * qa - k * qp)
                = k * (acc + (w.scattering * qs + w.absorption * qa - qp)) := by ring
            rw [harg]
            exact ih _

theorem calculate_S_score_scale (n : ℕ) (c : Assignment) (data : Catalog)
    (w : WeightConfig) (k : ℚ) :
    calculate_S_score n c data ⟨k * w.scattering, k * w.absorption⟩ =
      (calculate_S_score n c data w).map (fun q => k * q) := by
  rw [calculate_S_score, calculate_S_score]
  have hs := scoreAux_scale n c data w k (List.range n) 0
  rw [show k * (0 : ℚ) = 0 from by ring] at hs
  exact hs

theorem Score.ltVal_scale {maxS : Score} {q k : ℚ} (hk : 0 < k) :
    (maxS.scale k).ltVal (k * q) = maxS.ltVal q := by
  cases maxS with
  | negInf => rfl
  | val m =>
    simp only [Score.scale, Score.ltVal]
    by_cases h : m < q
    · simp [h, (mul_lt_mul_left hk).mpr h]
    · have h2 : ¬ k * m < k * q := by
        rw [mul_lt_mul_left hk]
        exact h
      simp [h, h2]

theorem searchLoop_scale (n : ℕ) (data : Catalog) (w : WeightConfig) (k : ℚ)
    (hk : 0 < k) :
    ∀ (cs : List Assignment) (best : Option Assignment) (maxS : Score)
      (scored : List Assignment),
      searchLoop n data ⟨k * w.scattering, k * w.absorption⟩ cs best
          (maxS.scale k) scored =
        (searchLoop n data w cs best maxS scored).map
          (fun r => (r.1, r.2.1.scale k, r.2.2)) := by
  intro cs
  induction cs with
  | nil => intro best maxS scored; rfl
  | cons c cs ih =>
    intro best maxS scored
    cases hv : validCombination c [] with
    | false =>
      rw [searchLoop_cons_invalid n data _ c cs best (maxS.scale k) scored hv,
        searchLoop_cons_invalid n data w c cs best maxS scored hv]
      exact ih best maxS scored
    | true =>
      cases hsc : calculate_S_score n c data w with
      | error e =>
        have hsc2 : calculate_S_score n c data ⟨k * w.scattering, k * w.absorption⟩
            = .error e := by
          rw [calculate_S_score_scale, hsc]
          rfl
        rw [searchLoop_cons_valid_error n data _ c cs best (maxS.scale k) scored e hv hsc2,
          searchLoop_cons_valid_error n data w c cs best maxS scored e hv hsc]
        rfl
      | ok q =>
        have hsc2 : calculate_S_score n c data ⟨k * w.scattering, k * w.absorption⟩
            = .ok (k * q) := by
          rw [calculate_S_score_scale, hsc]
          rfl
        rw [searchLoop_cons_valid_ok n data _ c cs best (maxS.scale k) scored (k * q) hv hsc2,
          searchLoop_cons_valid_ok n data w c cs best maxS scored q hv hsc,
          Score.ltVal_scale hk]
        cases hup : maxS.ltVal q with
        | true =>
          rw [if_pos rfl, if_pos rfl]
          exact ih (some c) (.val q) (scored ++ [c])
        | false =>
          simp only [Bool.false_eq_true, if_false]
          exact ih best maxS (scored ++ [c])

theorem find_best_combination_scale (n : ℕ) (data : Catalog) (w : WeightConfig)
    (k : ℚ) (hk : 0 < k) :
    find_best_combination n data ⟨k * w.scattering, k * w.absorption⟩ =
      (find_best_combination n data w).map (fun r => (r.1, r.2.scale k)) := by
  cases data with
  | nil => rfl
  | cons e rest =>
    rw [find_best_combination_cons, find_best_combination_cons]
    have hsl := searchLoop_scale n (e :: rest) w k hk
      (allCandidates n (e :: rest)) none Score.negInf []
    rw [show Score.scale k Score.negInf = Score.negInf from rfl] at hsl
    rw [hsl]
    cases searchLoop n (e :: rest) w (allCandidates n (e :: rest)) none .negInf [] with
    | error err => simp [Except.map]
    | ok r => simp [Except.map]

/-! ### Qext-independence -/

theorem recordAgrees_spec {r1 r2 : OpticalRecord} (h : recordAgrees r1 r2 = true) :
    r1.nm = r2.nm ∧ r1.Qsca = r2.Qsca ∧ r1.Qabs = r2.Qabs := by
  rw [recordAgrees, Bool.and_eq_true, Bool.and_eq_true] at h
  rcases h with ⟨⟨h1, h2⟩, h3⟩
  exact ⟨eq_of_beq h1, eq_of_beq h2, eq_of_beq h3⟩

theorem tablesAgree_find? {t1 t2 : List OpticalRecord}
    (h : tablesAgree t1 t2 = true) (wl : ℚ) :
    (t1.find? (fun r => decide (r.nm = wl)) = none ∧
      t2.find? (fun r => decide (r.nm = wl)) = none) ∨
    ∃ r1 r2, t1.find? (fun r => decide (r.nm = wl)) = some r1 ∧
      t2.find? (fun r => decide (r.nm = wl)) = some r2 ∧
      recordAgrees r1 r2 = true := by
  induction t1 generalizing t2 with
  | nil =>
    cases t2 with
    | nil => exact Or.inl ⟨rfl, rfl⟩
    | cons r2 t2 => simp [tablesAgree] at h
  | cons r1 t1 ih =>
    cases t2 with
    | nil => simp [tablesAgree] at h
    | cons r2 t2 =>
      rw [tablesAgree, Bool.and_eq_true] at h
      rcases h with ⟨hrec, hrest⟩
      have hnm := (recordAgrees_spec hrec).1
      by_cases hp : r1.nm = wl
      · have hp2 : r2.nm = wl := by rw [← hnm]; exact hp
        rw [List.find?_cons_of_pos _ (by simp [hp]),
          List.find?_cons_of_pos _ (by simp [hp2])]
        exact Or.inr ⟨r1, r2, rfl, rfl, hrec⟩
      · have hp2 : ¬ r2.nm = wl := by rw [← hnm]; exact hp
        rw [List.find?_cons_of_neg _ (by simp [hp]),
          List.find?_cons_of_neg _ (by simp [hp2])]
        exact ih hrest

theorem lookup_agrees {d1 d2 : Catalog} (h : catalogAgrees d1 d2 = true)
    (np : String) :
    (d1.lookup np = none ∧ d2.lookup np = none) ∨
    ∃ t1 t2, d1.lookup np = some t1 ∧ d2.lookup np = some t2 ∧
      tablesAgree t1 t2 = true := by
  induction d1 generalizing d2 with
  | nil =>
    cases d2 with
    | nil => exact Or.inl ⟨rfl, rfl⟩
    | cons e2 d2 => rcases e2 with ⟨k2, t2⟩; simp [catalogAgrees] at h
  | cons e1 d1 ih =>
    rcases e1 with ⟨k1, t1⟩
    cases d2 with
    | nil => simp [catalogAgrees] at h
    | cons e2 d2 =>
      rcases e2 with ⟨k2, t2⟩
      rw [catalogAgrees, Bool.and_eq_true, Bool.and_eq_true] at h
      rcases h with ⟨⟨hk, htab⟩, hrest⟩
      have hk12 : k1 = k2 := eq_of_beq hk
      by_cases hnp : np = k1
      · have hb1 : (np == k1) = true := beq_iff_eq.mpr hnp
        have hb2 : (np == k2) = true := by rw [← hk12]; exact hb1
        simp only [List.lookup, hb1, hb2]
        exact Or.inr ⟨t1, t2, rfl, rfl, htab⟩
      · have hb1 : (np == k1) = false := by simp [hnp]
        have hb2 : (np == k2) = false := by rw [← hk12]; exact hb1
        simp only [List.lookup, hb1, hb2]
        exact ih hrest

theorem calculate_absorption_agrees {d1 d2 : Catalog}
    (h : catalogAgrees d1 d2 = true) (np : String) (wl : ℚ) :
    calculate_absorption d1 np wl = calculate_absorption d2 np wl := by
  rw [calculate_absorption, calculate_absorption]
  rcases lookup_agrees h np with ⟨h1, h2⟩ | ⟨t1, t2, h1, h2, hag⟩
  · simp only [h1, h2]
  · simp only [h1, h2]
    rcases tablesAgree_find? hag wl with ⟨hf1, hf2⟩ | ⟨r1, r2, hf1, hf2, hrec⟩
    · simp only [hf1, hf2]
    · simp only [hf1, hf2, (recordAgrees_spec hrec).2.2]

theorem calculate_scattering_agrees {d1 d2 : Catalog}
    (h : catalogAgrees d1 d2 = true) (np : String) (wl : ℚ) :
    calculate_scattering d1 np wl = calculate_scattering d2 np wl := by
  rw [calculate_scattering, calculate_scattering]
  rcases lookup_agrees h np with ⟨h1, h2⟩ | ⟨t1, t2, h1, h2, hag⟩
  · simp only [h1, h2]
  · simp only [h1, h2]
    rcases tablesAgree_find? hag wl with ⟨hf1, hf2⟩ | ⟨r1, r2, hf1, hf2, hrec⟩
    · simp only [hf1, hf2]
    · simp only [hf1, hf2, (recordAgrees_spec hrec).2.1]

theorem penaltyAux_agrees {d1 d2 : Catalog} (h : catalogAgrees d1 d2 = true)
    (c : Assignment) (w : WeightConfig) (wl : ℚ) (i : ℕ) :
    ∀ (js : List ℕ) (acc : ℚ),
      penaltyAux c d1 w wl i js acc = penaltyAux c d2 w wl i js acc := by
  intro js
  induction js with
  | nil => intro acc; rfl
  | cons j js ih =>
    intro acc
    rw [penaltyAux, penaltyAux]
    by_cases hij : i = j
    · rw [if_pos hij, if_pos hij]
      exact ih acc
    · rw [if_neg hij, if_neg hij]
      cases hj : c.get? j with
      | none => simp only [hj]
      | some p =>
        rcases p with ⟨np2, wl2⟩
        simp only [hj, calculate_absorption_agrees h np2 wl,
          calculate_scattering_agrees h np2 wl]
        cases habs : calculate_absorption d2 np2 wl with
        | error e => simp only [habs]
        | ok qa =>
          simp only [habs]
          cases hsca : calculate_scattering d2 np2 wl with
          | error e => simp only [hsca]
          | ok qs =>
            simp only [hsca]
            exact ih _

theorem scoreAux_agrees {d1 d2 : Catalog} (h : catalogAgrees d1 d2 = true)
    (n : ℕ) (c : Assignment) (w : WeightConfig) :
    ∀ (is : List ℕ) (acc : ℚ),
      scoreAux n c d1 w is acc = scoreAux n c d2 w is acc := by
  intro is
  induction is with
  | nil => intro acc; rfl
  | cons i is ih =>
    intro acc
    rw [scoreAux, scoreAux]
    cases hi : c.get? i with
    | none => simp only [hi]
    | some p =>
      rcases p with ⟨np1, wl1⟩
      simp only [hi, calculate_absorption_agrees h np1 wl1,
        calculate_scattering_agrees h np1 wl1,
        penaltyAux_agrees h c w wl1 i (List.range n)]
      cases habs : calculate_absorption d2 np1 wl1 with
      | error e => simp only [habs]
      | ok qa =>
        simp only [habs]
        cases hsca : calculate_scattering d2 np1 wl1 with
        | error e => simp only [hsca]
        | ok qs =>
          simp only [hsca]
          cases hpen : penaltyAux c d2 w wl1 i (List.range n) 0 with
          | error e => simp only [hpen]
          | ok qp =>
            simp only [hpen]
            exact ih _

theorem calculate_S_score_agrees {d1 d2 : Catalog}
    (h : catalogAgrees d1 d2 = true) (n : ℕ) (c : Assignment) (w : WeightConfig) :
    calculate_S_score n c d1 w = calculate_S_score n c d2 w :=
  scoreAux_agrees h n c w (List.range n) 0

theorem searchLoop_agrees {d1 d2 : Catalog} (h : catalogAgrees d1 d2 = true)
    (n : ℕ) (w : WeightConfig) :
    ∀ (cs : List Assignment) (best : Option Assignment) (maxS : Score)
      (scored : List Assignment),
      searchLoop n d1 w cs best maxS scored = searchLoop n d2 w cs best maxS scored := by
  intro cs
  induction cs with
  | nil => intro best maxS scored; rfl
  | cons c cs ih =>
    intro best maxS scored
    cases hv : validCombination c [] with
    | false =>
      rw [searchLoop_cons_invalid n d1 w c cs best maxS scored hv,
        searchLoop_cons_invalid n d2 w c cs best maxS scored hv]
      exact ih best maxS scored
    | true =>
      cases hsc : calculate_S_score n c d2 w with
      | error e =>
        have hsc1 : calculate_S_score n c d1 w = .error e := by
          rw [calculate_S_score_agrees h]
          exact hsc
        rw [searchLoop_cons_valid_error n d1 w c cs best maxS scored e hv hsc1,
          searchLoop_cons_valid_error n d2 w c cs best maxS scored e hv hsc]
      | ok q =>
        have hsc1 : calculate_S_score n c d1 w = .ok q := by
          rw [calculate_S_score_agrees h]
          exact hsc
        rw [searchLoop_cons_valid_ok n d1 w c cs best maxS scored q hv hsc1,
          searchLoop_cons_valid_ok n d2 w c cs best maxS scored q hv hsc]
        cases hup : maxS.ltVal q with
        | true =>
          rw [if_pos rfl, if_pos rfl]
          exact ih (some c) (.val q) (scored ++ [c])
        | false =>
          simp only [Bool.false_eq_true, if_false]
          exact ih best maxS (scored ++ [c])

theorem keys_agrees {d1 d2 : Catalog} (h : catalogAgrees d1 d2 = true) :
    d1.map Prod.fst = d2.map Prod.fst := by
  induction d1 generalizing d2 with
  | nil =>
    cases d2 with
    | nil => rfl
    | cons e2 d2 => rcases e2 with ⟨k2, t2⟩; simp [catalogAgrees] at h
  | cons e1 d1 ih =>
    rcases e1 with ⟨k1, t1⟩
    cases d2 with
    | nil => simp [catalogAgrees] at h
    | cons e2 d2 =>
      rcases e2 with ⟨k2, t2⟩
      rw [catalogAgrees, Bool.and_eq_true, Bool.and_eq_true] at h
      rcases h with ⟨⟨hk, _⟩, hrest⟩
      simp only [List.map_cons]
      rw [eq_of_beq hk, ih hrest]

theorem nm_map_agrees {t1 t2 : List OpticalRecord} (h : tablesAgree t1 t2 = true) :
    t1.map OpticalRecord.nm = t2.map OpticalRecord.nm := by
  induction t1 generalizing t2 with
  | nil =>
    cases t2 with
    | nil => rfl
    | cons r2 t2 => simp [tablesAgree] at h
  | cons r1 t1 ih =>
    cases t2 with
    | nil => simp [tablesAgree] at h
    | cons r2 t2 =>
      rw [tablesAgree, Bool.and_eq_true] at h
      rcases h with ⟨hrec, hrest⟩
      simp only [List.map_cons]
      rw [(recordAgrees_spec hrec).1, ih hrest]

theorem find_best_combination_agrees {d1 d2 : Catalog}
    (h : catalogAgrees d1 d2 = true) (n : ℕ) (w : WeightConfig) :
    find_best_combination n d1 w = find_best_combination n d2 w := by
  cases d1 with
  | nil =>
    cases d2 with
    | nil => rfl
    | cons e2 d2 => rcases e2 with ⟨k2, t2⟩; simp [catalogAgrees] at h
  | cons e1 r1 =>
    rcases e1 with ⟨k1, t1⟩
    cases d2 with
    | nil => simp [catalogAgrees] at h
    | cons e2 r2 =>
      rcases e2 with ⟨k2, t2⟩
      have hthis := h
      rw [catalogAgrees, Bool.and_eq_true, Bool.and_eq_true] at hthis
      rcases hthis with ⟨⟨hk, htab⟩, hrest⟩
      rw [find_best_combination_cons, find_best_combination_cons]
      have huniv : allCandidates n ((k1, t1) :: r1) = allCandidates n ((k2, t2) :: r2) := by
        rw [allCandidates, allCandidates, candidateUniverse, candidateUniverse,
          representativeWavelengths, representativeWavelengths, nm_map_agrees htab,
          keys_agrees h]
      rw [huniv, searchLoop_agrees h n w]

/-! ### Helper facts for the degenerate cases and example inputs -/

theorem flatPairs_nil_right (nps : List String) : flatPairs nps [] = [] := by
  induction nps with
  | nil => rfl
  | cons np nps ih =>
    rw [flatPairs, List.flatMap_cons, List.map_nil, List.nil_append]
    exact ih

theorem score_catalogAB_eval :
    calculate_S_score 2 [("A", 1), ("B", 1)] catalogAB wOne = .ok 0 := by
  have hr : List.range 2 = [0, 1] := rfl
  have haA : calculate_absorption catalogAB "A" 1 = .ok 0 := rfl
  have hsA : calculate_scattering catalogAB "A" 1 = .ok 5 := rfl
  have haB : calculate_absorption catalogAB "B" 1 = .ok 0 := rfl
  have hsB : calculate_scattering catalogAB "B" 1 = .ok 1 := rfl
  rw [calculate_S_score, hr]
  norm_num [scoreAux, penaltyAux, haA, hsA, haB, hsB, wOne, List.get?]

theorem find_catalogAB_eval :
    find_best_combination 2 catalogAB wOne =
      .ok (some [("A", 1), ("B", 1)], .val 0) := by
  show find_best_combination 2 (("A", [rowA]) :: [("B", [rowB])]) wOne = _
  rw [find_best_combination_cons]
  have hall : allCandidates 2 (("A", [rowA]) :: [("B", [rowB])]) =
      [[("A", 1), ("B", 1)]] := rfl
  rw [hall]
  rw [searchLoop_cons_valid_ok 2 [("A", [rowA]), ("B", [rowB])] wOne
    [("A", 1), ("B", 1)] [] none Score.negInf [] 0 (by rfl) score_catalogAB_eval]
  rw [show Score.negInf.ltVal 0 = true from rfl, if_pos rfl]
  rfl

theorem scored_catalogAB_eval :
    scoredCandidates 2 catalogAB wOne = .ok [[("A", 1), ("B", 1)]] := by
  show scoredCandidates 2 (("A", [rowA]) :: [("B", [rowB])]) wOne = _
  rw [scoredCandidates_cons]
  have hall : allCandidates 2 (("A", [rowA]) :: [("B", [rowB])]) =
      [[("A", 1), ("B", 1)]] := rfl
  rw [hall]
  rw [searchLoop_cons_valid_ok 2 [("A", [rowA]), ("B", [rowB])] wOne
    [("A", 1), ("B", 1)] [] none Score.negInf [] 0 (by rfl) score_catalogAB_eval]
  rw [show Score.negInf.ltVal 0 = true from rfl, if_pos rfl]
  rfl

/-! ### The claims -/

/-- C8: for every non-empty catalog and weights, `find_best_combination` with
`n = 0` returns the empty assignment (the empty sequence, not `none`) with
score `0`: the single empty candidate is valid, scores `0`, and `0` beats
`-inf`. -/
theorem combinations_zero (l : List (String × ℚ)) : combinations 0 l = [[]] := by
  cases l <;> rfl

theorem find_best_combination_zero_n (e : String × List OpticalRecord)
    (rest : Catalog) (weights : WeightConfig) :
    find_best_combination 0 (e :: rest) weights = .ok (some [], .val 0) := by
  rcases e with ⟨k0, df0⟩
  rw [find_best_combination_cons]
  rw [show allCandidates 0 ((k0, df0) :: rest) = [[]] from combinations_zero _]
  rw [searchLoop_cons_valid_ok 0 ((k0, df0) :: rest) weights [] [] none
    Score.negInf [] 0 rfl (by rfl)]
  rw [show Score.negInf.ltVal 0 = true from rfl, if_pos rfl]
  rfl

/-- C4, counterexample: on the empty catalog `find_best_combination` raises
`IndexError` at `nanoparticles[0]`; it does not return `(none, -inf)` as the
claim states. -/
theorem find_best_combination_empty_catalog_cex :
    find_best_combination 1 [] wOne = .error .indexError ∧
    ¬ find_best_combination 1 [] wOne = .ok (none, .negInf) :=
  ⟨rfl, fun h => Except.noConfusion h⟩

/-- C4, amended: for every weights and `n ≥ 1`, a non-empty catalog whose
representative (first) nanoparticle's table has zero wavelengths generates
zero candidates and returns `(none, -inf)` normally; an empty catalog instead
raises `IndexError`. -/
theorem find_best_combination_empty_universe (np : String) (rest : Catalog)
    (weights : WeightConfig) (n : ℕ) (hn : 1 ≤ n) :
    allCandidates n ((np, []) :: rest) = [] ∧
    find_best_combination n ((np, []) :: rest) weights = .ok (none, .negInf) ∧
    find_best_combination n [] weights = .error .indexError := by
  obtain ⟨m, rfl⟩ : ∃ m, n = m + 1 := ⟨n - 1, (Nat.succ_pred_eq_of_pos hn).symm⟩
  have hcu : candidateUniverse ((np, []) :: rest) = [] := by
    rw [candidateUniverse]
    exact flatPairs_nil_right _
  have hac : allCandidates (m + 1) ((np, []) :: rest) = [] := by
    rw [allCandidates, hcu]
    rfl
  refine ⟨hac, ?_, rfl⟩
  rw [find_best_combination_cons, hac]
  rfl

theorem find_best_combination_empty_universe_witness :
    allCandidates 1 (("A", []) :: []) = [] ∧
    find_best_combination 1 (("A", []) :: []) wOne = .ok (none, .negInf) ∧
    find_best_combination 1 [] wOne = .error .indexError :=
  find_best_combination_empty_universe "A" [] wOne 1 (by norm_num)

/-- C6: for every non-empty catalog and weights, if `n` exceeds the number of
distinct nanoparticle identifiers, no size-`n` candidate has pairwise-distinct
identifiers, so nothing is scored and `find_best_combination` returns
`(none, -inf)` without error. -/
theorem find_best_combination_too_large_n (n : ℕ) (data : Catalog)
    (weights : WeightConfig) (hne : data ≠ [])
    (hn : (data.map Prod.fst).dedup.length < n) :
    find_best_combination n data weights = .ok (none, .negInf) := by
  cases data with
  | nil => exact absurd rfl hne
  | cons e rest =>
    rw [find_best_combination_cons,
      searchLoop_no_valid n (e :: rest) weights (allCandidates n (e :: rest))
        none .negInf [] (no_valid_candidate_of_large_n hn)]
    rfl

theorem find_best_combination_too_large_n_witness :
    find_best_combination 2 catalogSolo wOne = .ok (none, .negInf) :=
  find_best_combination_too_large_n 2 catalogSolo wOne (by decide) (by decide)

/-- C1, counterexample: with the one-nanoparticle catalog `catalogSolo` and
`n = 2` every hypothesis of the claim holds (non-empty catalog, `n ≥ 1`, and
no scoring lookup is ever attempted, hence all succeed vacuously), yet the
search returns `(none, -inf)`: the returned `bestCombination` is not a valid
candidate as the claim asserts. -/
theorem find_best_combination_no_valid_cex :
    find_best_combination 2 catalogSolo wOne = .ok (none, .negInf) ∧
    ¬ ∃ b s, find_best_combination 2 catalogSolo wOne = .ok (some b, s) := by
  refine ⟨rfl, ?_⟩
  rintro ⟨b, s, h⟩
  rw [show find_best_combination 2 catalogSolo wOne
    = Except.ok (none, Score.negInf) from rfl] at h
  simp at h

/-- C1, amended: for every non-empty catalog, weights, and `n ≥ 1` for which
every scoring lookup succeeds, and such that at least one valid candidate
exists in the candidate space, `find_best_combination` returns a pair
`(some b, s)` where `b` is a valid candidate (`n` pairs drawn from the flat
universe with pairwise-distinct identifiers), `s` is the score of `b`, and
`s` is greater than or equal to the score of every valid candidate. -/
theorem find_best_combination_maximizes
    (n : ℕ) (data : Catalog) (weights : WeightConfig)
    (hne : data ≠ []) (hn : 1 ≤ n)
    (hok : ∀ c ∈ allCandidates n data, validCombination c [] = true →
      ∃ q, calculate_S_score n c data weights = .ok q)
    (hex : ∃ c ∈ allCandidates n data, validCombination c [] = true) :
    ∃ b s, find_best_combination n data weights = .ok (some b, .val s) ∧
      b.Sublist (candidateUniverse data) ∧ b.length = n ∧
      (b.map Prod.fst).Nodup ∧
      calculate_S_score n b data weights = .ok s ∧
      ∀ c, c.Sublist (candidateUniverse data) → c.length = n →
        (c.map Prod.fst).Nodup →
        ∀ q, calculate_S_score n c data weights = .ok q → q ≤ s := by
  cases data with
  | nil => exact absurd rfl hne
  | cons e rest =>
    obtain ⟨b', m', s', heq, hinv, hbnd, _⟩ :=
      searchLoop_max n (e :: rest) weights (allCandidates n (e :: rest))
        (allCandidates n (e :: rest)) none .negInf [] (fun x hx => hx) hok
        (Or.inl ⟨rfl, rfl⟩)
    obtain ⟨c0, hc0, hv0⟩ := hex
    obtain ⟨q0, hq0⟩ := hok c0 hc0 hv0
    rcases Score.ltVal_false_iff.mp (hbnd c0 hc0 hv0 q0 hq0) with ⟨v, hveq, _⟩
    rcases hinv with ⟨_, hm0⟩ | ⟨bb, qb, hbb, hqbm, hmem, hval, hscore⟩
    · rw [hm0] at hveq; cases hveq
    · obtain ⟨hsub, hlen⟩ := mem_combinations.mp hmem
      refine ⟨bb, qb, ?_, hsub, hlen, (validCombination_nil_iff bb).mp hval,
        hscore, ?_⟩
      · rw [find_best_combination_cons, heq, hbb, hqbm]
        rfl
      · intro c hcsub hclen hcnd q hq
        have hcmem : c ∈ allCandidates n (e :: rest) :=
          mem_combinations.mpr ⟨hcsub, hclen⟩
        have hcval : validCombination c [] = true :=
          (validCombination_nil_iff c).mpr hcnd
        have hfalse := hbnd c hcmem hcval q hq
        rw [hqbm] at hfalse
        rcases Score.ltVal_false_iff.mp hfalse with ⟨v', hv', hle⟩
        cases hv'
        exact hle

theorem find_best_combination_maximizes_witness :
    ∃ b s, find_best_combination 2 catalogAB wOne = .ok (some b, .val s) ∧
      b.Sublist (candidateUniverse catalogAB) ∧ b.length = 2 ∧
      (b.map Prod.fst).Nodup ∧
      calculate_S_score 2 b catalogAB wOne = .ok s ∧
      ∀ c, c.Sublist (candidateUniverse catalogAB) → c.length = 2 →
        (c.map Prod.fst).Nodup →
        ∀ q, calculate_S_score 2 c catalogAB wOne = .ok q → q ≤ s := by
  refine find_best_combination_maximizes 2 catalogAB wOne (by decide) (by norm_num)
    ?_ ?_
  · intro c hc _
    rw [show allCandidates 2 catalogAB = [[("A", 1), ("B", 1)]] from rfl] at hc
    have hc' : c = [("A", 1), ("B", 1)] := by simpa using hc
    subst hc'
    exact ⟨0, score_catalogAB_eval⟩
  · refine ⟨[("A", 1), ("B", 1)], ?_, rfl⟩
    rw [show allCandidates 2 catalogAB = [[("A", 1), ("B", 1)]] from rfl]
    simp

/-- C7: when `find_best_combination` returns `(some b, s)`, the candidate `b`
is valid with score exactly `s`, the enumeration `allCandidates` splits as
`l1 ++ b :: l2` where every valid candidate of the earlier segment `l1` scores
strictly below `s` (the strict `>` update makes the first maximal candidate in
the fixed combinations order win ties), and every valid candidate scores at
most `s`. -/
theorem find_best_combination_first_max (n : ℕ) (data : Catalog)
    (weights : WeightConfig) (b : Assignment) (s : ℚ)
    (h : find_best_combination n data weights = .ok (some b, .val s)) :
    validCombination b [] = true ∧
    calculate_S_score n b data weights = .ok s ∧
    (∃ l1 l2, allCandidates n data = l1 ++ b :: l2 ∧
      ∀ c ∈ l1, validCombination c [] = true →
        ∀ q, calculate_S_score n c data weights = .ok q → q < s) ∧
    (∀ c ∈ allCandidates n data, validCombination c [] = true →
      ∀ q, calculate_S_score n c data weights = .ok q → q ≤ s) := by
  cases data with
  | nil =>
    rw [show find_best_combination n ([] : Catalog) weights
      = Except.error .indexError from rfl] at h
    cases h
  | cons e rest =>
    rw [find_best_combination_cons] at h
    cases hloop : searchLoop n (e :: rest) weights
        (allCandidates n (e :: rest)) none .negInf [] with
    | error err => rw [hloop] at h; cases h
    | ok r =>
      rw [hloop] at h
      rcases r with ⟨b', m', s'⟩
      have hbm : b' = some b ∧ m' = .val s := by
        have h' : (b', m') = (some b, Score.val s) := by
          simpa [Except.map] using h
        exact ⟨congrArg Prod.fst h', congrArg Prod.snd h'⟩
      rcases hbm with ⟨rfl, rfl⟩
      rcases searchLoop_first n (e :: rest) weights b s
          (allCandidates n (e :: rest)) none .negInf [] s' hloop with
        ⟨hbe, _⟩ | ⟨l1, l2, hsplit, hvb, hsb, _, hbound⟩
      · cases hbe
      · have hok := searchLoop_ok_all_scored n (e :: rest) weights
          (allCandidates n (e :: rest)) none .negInf [] _ hloop
        obtain ⟨b2, m2, s2, heq2, _, hbnd2, _⟩ :=
          searchLoop_max n (e :: rest) weights (allCandidates n (e :: rest))
            (allCandidates n (e :: rest)) none .negInf [] (fun x hx => hx) hok
            (Or.inl ⟨rfl, rfl⟩)
        rw [hloop] at heq2
        have hm2 : m2 = .val s := by
          have h' : b2 = some b ∧ m2 = Score.val s ∧ s2 = s' := by
            simpa using heq2.symm
          exact h'.2.1
        refine ⟨hvb, hsb, ⟨l1, l2, hsplit, hbound⟩, ?_⟩
        intro c hc hcv q hq
        have hfalse := hbnd2 c hc hcv q hq
        rw [hm2] at hfalse
        rcases Score.ltVal_false_iff.mp hfalse with ⟨v, hv, hle⟩
        cases hv
        exact hle

theorem find_best_combination_first_max_witness :
    validCombination [("A", 1), ("B", 1)] [] = true ∧
    calculate_S_score 2 [("A", 1), ("B", 1)] catalogAB wOne = .ok 0 ∧
    (∃ l1 l2, allCandidates 2 catalogAB = l1 ++ [("A", 1), ("B", 1)] :: l2 ∧
      ∀ c ∈ l1, validCombination c [] = true →
        ∀ q, calculate_S_score 2 c catalogAB wOne = .ok q → q < 0) ∧
    (∀ c ∈ allCandidates 2 catalogAB, validCombination c [] = true →
      ∀ q, calculate_S_score 2 c catalogAB wOne = .ok q → q ≤ 0) :=
  find_best_combination_first_max 2 catalogAB wOne [("A", 1), ("B", 1)] 0
    find_catalogAB_eval

/-- C9: scaling both weights by a positive constant `k` leaves the optimal
assignment unchanged and scales the optimal score by `k`. -/
theorem find_best_combination_weight_linearity (n : ℕ) (data : Catalog)
    (weights : WeightConfig) (k : ℚ) (hk : 0 < k) (a : Assignment) (s : ℚ)
    (h : find_best_combination n data weights = .ok (some a, .val s)) :
    find_best_combination n data
        ⟨k * weights.scattering, k * weights.absorption⟩ =
      .ok (some a, .val (k * s)) := by
  rw [find_best_combination_scale n data weights k hk, h]
  rfl

theorem find_best_combination_weight_linearity_witness :
    find_best_combination 2 catalogAB ⟨2 * wOne.scattering, 2 * wOne.absorption⟩ =
      .ok (some [("A", 1), ("B", 1)], .val (2 * 0)) :=
  find_best_combination_weight_linearity 2 catalogAB wOne 2 (by norm_num)
    [("A", 1), ("B", 1)] 0 find_catalogAB_eval

/-- C10: the result of `find_best_combination` is independent of the
extinction-efficiency column: two catalogs that agree on identifiers,
wavelengths, scattering and absorption but differ arbitrarily in `Qext`
produce identical results, because scoring reads only `Qsca` and `Qabs`. -/
theorem find_best_combination_qext_independent (d1 d2 : Catalog)
    (h : catalogAgrees d1 d2 = true) (n : ℕ) (weights : WeightConfig) :
    find_best_combination n d1 weights = find_best_combination n d2 weights :=
  find_best_combination_agrees h n weights

theorem find_best_combination_qext_independent_witness :
    find_best_combination 2 catalogAB wOne = find_best_combination 2 catalogQext wOne :=
  find_best_combination_qext_independent catalogAB catalogQext (by decide) 2 wOne

/-- C2: for an assignment of `n` pairs whose lookups all succeed,
`calculate_S_score` returns the sum over `i` of own score minus penalty,
where the own score weighs `(P_i, w_i)`'s scattering and absorption, and the
penalty sums every other selected nanoparticle's weighted response evaluated
at `P_i`'s wavelength `w_i`. -/
theorem calculate_S_score_formula_spec (n : ℕ) (c : Assignment) (data : Catalog)
    (weights : WeightConfig) (hlen : c.length = n)
    (hok : ∀ i < n, ∀ j < n,
      (targetRow data (pairAt c j).1 (pairAt c i).2).isSome = true) :
    calculate_S_score n c data weights =
      .ok (∑ i in Finset.range n,
        ((weights.scattering * scatteringAt data (pairAt c i).1 (pairAt c i).2
            + weights.absorption * absorptionAt data (pairAt c i).1 (pairAt c i).2)
          - ∑ j in (Finset.range n).filter (fun j => j ≠ i),
              (weights.scattering * scatteringAt data (pairAt c j).1 (pairAt c i).2
                + weights.absorption
                  * absorptionAt data (pairAt c j).1 (pairAt c i).2))) := by
  rw [calculate_S_score_ok n c data weights (le_of_eq hlen.symm) hok,
    sum_map_list_range]
  congr 1
  refine Finset.sum_congr rfl ?_
  intro i _
  rw [contributionAt_eq]
  rfl

theorem calculate_S_score_formula_spec_witness :
    calculate_S_score 2 [("A", 1), ("B", 1)] catalogAB wOne =
      .ok (∑ i in Finset.range 2,
        ((wOne.scattering
              * scatteringAt catalogAB (pairAt [("A", 1), ("B", 1)] i).1
                (pairAt [("A", 1), ("B", 1)] i).2
            + wOne.absorption
              * absorptionAt catalogAB (pairAt [("A", 1), ("B", 1)] i).1
                (pairAt [("A", 1), ("B", 1)] i).2)
          - ∑ j in (Finset.range 2).filter (fun j => j ≠ i),
              (wOne.scattering
                  * scatteringAt catalogAB (pairAt [("A", 1), ("B", 1)] j).1
                    (pairAt [("A", 1), ("B", 1)] i).2
                + wOne.absorption
                  * absorptionAt catalogAB (pairAt [("A", 1), ("B", 1)] j).1
                    (pairAt [("A", 1), ("B", 1)] i).2))) :=
  calculate_S_score_formula_spec 2 [("A", 1), ("B", 1)] catalogAB wOne rfl
    (by decide)

/-- C3: if some valid candidate's scoring hits a missing (nanoparticle,
wavelength) record, the entire `find_best_combination` invocation fails with
the wavelength-not-found error instead of skipping the candidate or returning
a partial result. -/
theorem find_best_combination_error_propagation (n : ℕ) (data : Catalog)
    (weights : WeightConfig) (hn : 1 ≤ n) (c₀ : Assignment)
    (hc₀ : c₀ ∈ allCandidates n data) (hv₀ : validCombination c₀ [] = true)
    (e₀ : ScriptError) (he₀ : calculate_S_score n c₀ data weights = .error e₀) :
    ∃ wl np, find_best_combination n data weights =
      .error (.wavelengthNotFound wl np) := by
  cases data with
  | nil =>
    exfalso
    obtain ⟨m, rfl⟩ : ∃ m, n = m + 1 := ⟨n - 1, (Nat.succ_pred_eq_of_pos hn).symm⟩
    rw [show allCandidates (m + 1) ([] : Catalog) = [] from rfl] at hc₀
    exact absurd hc₀ (List.not_mem_nil c₀)
  | cons e rest =>
    obtain ⟨err, herr, c', hc', _, hsc'⟩ :=
      searchLoop_error_of_bad n (e :: rest) weights (allCandidates n (e :: rest))
        none .negInf [] c₀ e₀ hc₀ hv₀ he₀
    have hlen : c'.length = n := length_of_mem_combinations hc'
    obtain ⟨wl, np, hwnf⟩ :=
      calculate_S_score_error n c' (e :: rest) weights err (le_of_eq hlen.symm)
        (keys_of_mem_allCandidates hc') hsc'
    refine ⟨wl, np, ?_⟩
    rw [find_best_combination_cons, herr, hwnf]
    rfl

theorem find_best_combination_error_propagation_witness :
    ∃ wl np, find_best_combination 1 catalogMissing wOne =
      .error (.wavelengthNotFound wl np) :=
  find_best_combination_error_propagation 1 catalogMissing wOne (by norm_num)
    [("B", 1)] (by decide) rfl (.wavelengthNotFound 1 "B") rfl

/-- C5: when the search completes, the candidates it actually scored are
exactly those with `n` pairs and pairwise-distinct nanoparticle identifiers;
candidates with a repeated identifier are skipped without scoring, while
wavelength repetition alone never disqualifies a candidate. -/
theorem scoredCandidates_spec (n : ℕ) (data : Catalog) (weights : WeightConfig)
    (scored : List Assignment)
    (h : scoredCandidates n data weights = .ok scored) :
    (∀ c ∈ scored, c.length = n ∧ (c.map Prod.fst).Nodup) ∧
    (∀ c ∈ allCandidates n data,
      ((c.map Prod.fst).Nodup → c ∈ scored) ∧
      (¬ (c.map Prod.fst).Nodup → c ∉ scored)) := by
  cases data with
  | nil =>
    rw [show scoredCandidates n ([] : Catalog) weights
      = .error .indexError from rfl] at h
    cases h
  | cons e rest =>
    rw [scoredCandidates_cons] at h
    cases hloop : searchLoop n (e :: rest) weights
        (allCandidates n (e :: rest)) none .negInf [] with
    | error err => rw [hloop] at h; cases h
    | ok r =>
      rw [hloop] at h
      have hs : r.2.2 = scored := by simpa [Except.map] using h
      have hfil := searchLoop_ok_scored n (e :: rest) weights
        (allCandidates n (e :: rest)) none .negInf [] r.1 r.2.1 r.2.2
        (by rw [hloop])
      rw [hs, List.nil_append] at hfil
      subst hfil
      constructor
      · intro c hc
        rw [List.mem_filter] at hc
        exact ⟨length_of_mem_combinations hc.1,
          (validCombination_nil_iff c).mp hc.2⟩
      · intro c hc
        constructor
        · intro hnd
          rw [List.mem_filter]
          exact ⟨hc, (validCombination_nil_iff c).mpr hnd⟩
        · intro hnd hmem
          rw [List.mem_filter] at hmem
          exact hnd ((validCombination_nil_iff c).mp hmem.2)

theorem scoredCandidates_spec_witness :
    (∀ c ∈ ([[("A", 1), ("B", 1)]] : List Assignment),
      c.length = 2 ∧ (c.map Prod.fst).Nodup) ∧
    (∀ c ∈ allCandidates 2 catalogAB,
      ((c.map Prod.fst).Nodup → c ∈ ([[("A", 1), ("B", 1)]] : List Assignment)) ∧
      (¬ (c.map Prod.fst).Nodup → c ∉ ([[("A", 1), ("B", 1)]] : List Assignment))) :=
  scoredCandidates_spec 2 catalogAB wOne [[("A", 1), ("B", 1)]]
    scored_catalogAB_eval
